import Mathlib

/-!
Shallow embedding of the upload-and-parse ingestion pipeline
(`ingest_files.py`) and of the title-existence endpoint of
`books_GET.py`, with theorems settling the specification's claims.
-/

set_option autoImplicit false

namespace Ingest

/-! ## Configuration constants (module header of `ingest_files.py`) -/

/-- `BATCH_SIZE = 4` — files per upload. -/
def BATCH_SIZE : Nat := 4

/-- `PAGE_SIZE = 100` — page size used by `list_documents`. -/
def PAGE_SIZE : Nat := 100

/-- `INITIAL_BACKOFF = 1` second. -/
def INITIAL_BACKOFF : Nat := 1

/-- `MAX_BACKOFF = 16` seconds. -/
def MAX_BACKOFF : Nat := 16

/-! ## Data model -/

/-- A remote document handle as returned by the collaborator's
`list_documents`: an id, a display name and a run status string
(the code compares it with `"DONE"` and `"FAIL"`). -/
structure RemoteDoc where
  id : String
  name : String
  run : String
deriving Repr, DecidableEq

/-- A local file under `SOURCE_FOLDER`.  `relPosix` is
`path.relative_to(root_folder).as_posix()`; `readResult` models
`path.read_bytes()`, with `none` standing for a raised read error. -/
structure LocalFile where
  relPosix : String
  readResult : Option (List Nat)
deriving Repr, DecidableEq

/-- The upload payload built by `build_document`. -/
structure Document where
  display_name : String
  blob : List Nat
deriving Repr, DecidableEq

/-- `stream_documents`: yield all documents page by page, starting at page 1
and stopping at the first empty page (`if not docs: break`).  The remote
listing is modelled as the list of successive pages; pages past the end of
the list are empty. -/
def stream_documents {α : Type} : List (List α) → List α
  | [] => []
  | p :: ps => if p.isEmpty then [] else p ++ stream_documents ps

/-! ## Duplicate filter (step 3 of `main`) -/

/-- The duplicate filter of `main`:
`[p for p in file_paths if p.relative_to(SOURCE_FOLDER).as_posix() not in existing]`.
`existing` is the set of names of already-streamed remote documents;
`not in` on a Python set of strings is exact, case-sensitive string
comparison, modelled by `List.contains` (`==` on `String`). -/
def to_upload (existing : List String) (files : List LocalFile) : List LocalFile :=
  files.filter (fun f => !(existing.contains f.relPosix))

/-! ## Batch uploader (`upload_in_batches`) -/

/-- Ceiling division: the number of elements of `range(0, n, B)` for `B ≥ 1`. -/
def ceilDiv (n B : Nat) : Nat := (n + B - 1) / B

/-- The successive batches of `upload_in_batches`: the loop
`for i in range(0, total, batch_size)` takes the slice
`file_paths[i : i + batch_size]` at each step.  We index the iterations by
`i = 0, 1, …` so the slice at iteration `i` starts at offset `i * B`. -/
def batches {α : Type} (B : Nat) (l : List α) : List (List α) :=
  (List.range (ceilDiv l.length B)).map (fun i => (l.drop (i * B)).take B)

/-- `build_document`: display name is the POSIX relative path, blob is the
file's bytes; a raised `read_bytes` is `none`. -/
def build_document (f : LocalFile) : Option Document :=
  match f.readResult with
  | none => none
  | some b => some { display_name := f.relPosix, blob := b }

/-- The `docs` list built for one batch: a file whose read raises is logged
and skipped (the `except` branch), the rest are appended in order. -/
def batchDocs (batch : List LocalFile) : List Document :=
  batch.filterMap build_document

/-- The bulk-upload calls issued by `upload_in_batches`: one
`dataset.upload_documents(docs)` call per batch whose `docs` list is
nonempty (`if not docs: continue` skips a batch in which every read failed). -/
def uploadCalls (B : Nat) (files : List LocalFile) : List (List Document) :=
  (batches B files).filterMap (fun batch =>
    if (batchDocs batch).isEmpty then none else some (batchDocs batch))

/-- The upload phase with submit outcomes: `submitOk i` tells whether the
`upload_documents` call at iteration `i` succeeds.  A raised submit is
caught (`except` branch), logged, and the loop continues, so the trace
records the issued call either way. -/
def uploadTrace (submitOk : Nat → Bool) (B : Nat) (files : List LocalFile) :
    List (List Document × Bool) :=
  (List.range (ceilDiv files.length B)).filterMap (fun i =>
    if (batchDocs ((files.drop (i * B)).take B)).isEmpty then none
    else some (batchDocs ((files.drop (i * B)).take B), submitOk i))

/-! ## Polling loop (`parse_sequentially`) -/

/-- One observation of the polling loop's status fetch
`dataset.list_documents(id=doc.id)[0]`: either the fetch raised
(`fetchErr`, the `except` branch) or it returned a document whose
`run` field is `runStatus`. -/
inductive PollObs where
  | fetchErr : PollObs
  | fetched (runStatus : String) : PollObs
deriving Repr, DecidableEq

/-- An observation is terminal when it is a successful fetch showing
`DONE` or `FAIL`; a fetch error is never terminal. -/
def terminal : PollObs → Bool
  | .fetchErr => false
  | .fetched s => s == "DONE" || s == "FAIL"

/-- `backoff = min(backoff * 2, MAX_BACKOFF)`. -/
def nextBackoff (b : Nat) : Nat := min (b * 2) MAX_BACKOFF

/-- One run of the polling `while True:` loop over a finite prefix of fetch
observations, starting from back-off `b`.  First component: the terminal
status, if one was reached within the prefix (`none` means the loop is
still running after consuming the whole prefix).  Second component: the
`time.sleep` durations performed, in order.  A fetch error sleeps the
current back-off, advances it, and continues; a non-terminal status does
the same; a terminal status breaks out before any further sleep. -/
def pollLoop (b : Nat) : List PollObs → Option String × List Nat
  | [] => (none, [])
  | PollObs.fetchErr :: os =>
      ((pollLoop (nextBackoff b) os).1, b :: (pollLoop (nextBackoff b) os).2)
  | PollObs.fetched s :: os =>
      if s = "DONE" ∨ s = "FAIL" then (some s, [])
      else ((pollLoop (nextBackoff b) os).1, b :: (pollLoop (nextBackoff b) os).2)

/-- The terminal status reached by the polling loop, if any. -/
def pollResult (b : Nat) (os : List PollObs) : Option String := (pollLoop b os).1

/-- The sleeps performed by the polling loop. -/
def pollSleeps (b : Nat) (os : List PollObs) : List Nat := (pollLoop b os).2

/-! ## Parse phase (`parse_sequentially` over the streamed documents) -/

/-- Environment for one streamed document: whether
`dataset.async_parse_documents([doc.id])` succeeds, and the successive
outcomes of the polling fetches for this document. -/
structure DocEnv where
  parseOk : Bool
  polls : List PollObs
deriving Repr, DecidableEq

/-- Observable events of the parse phase, in program order. -/
inductive Event where
  | skipped (name : String)
  | parsing (name docId : String)
  | parseReqFailed (name : String)
  | parseRequested (ids : List String)
  | slept (secs : Nat)
  | parsedOk (name : String)
  | parsedFail (name : String)
deriving Repr, DecidableEq

/-- Events of one document's polling session: the back-off sleeps, then the
terminal log line when a terminal status was observed within the session's
observations. -/
def sessionEvents (d : RemoteDoc) (env : DocEnv) : List Event :=
  (pollSleeps INITIAL_BACKOFF env.polls).map Event.slept ++
    (match pollResult INITIAL_BACKOFF env.polls with
     | some s => if s = "DONE" then [Event.parsedOk d.name] else [Event.parsedFail d.name]
     | none => [])

/-- The body of `parse_sequentially` for one streamed document: a document
listed as `DONE` is skipped outright; otherwise the parse request is
issued (a raised request is logged and the document is left for a future
run), then the polling session starts with `backoff = INITIAL_BACKOFF`. -/
def parseDoc (d : RemoteDoc) (env : DocEnv) : List Event :=
  if d.run = "DONE" then [Event.skipped d.name]
  else
    Event.parsing d.name d.id ::
      (if env.parseOk then Event.parseRequested [d.id] :: sessionEvents d env
       else [Event.parseReqFailed d.name])

/-- `parse_sequentially`: process the streamed documents one after the
other, in listing order. -/
def parse_sequentially (docs : List (RemoteDoc × DocEnv)) : List Event :=
  (docs.map (fun p => parseDoc p.1 p.2)).flatten

/-- The whole parse phase: `parse_sequentially(dataset)` over the paginated
listing. -/
def parsePhase (pages : List (List (RemoteDoc × DocEnv))) : List Event :=
  parse_sequentially (stream_documents pages)

/-- The document a parse-phase event visits, for the events that open a
document's treatment (the `Skipping` and `Parsing` log lines). -/
def visitedName : Event → Option String
  | .skipped n => some n
  | .parsing n _ => some n
  | _ => none

/-- The async-parse calls contained in a parse-phase trace. -/
def parseRequests (tr : List Event) : List (List String) :=
  tr.filterMap (fun e =>
    match e with
    | .parseRequested ids => some ids
    | _ => none)

/-- `existing = {doc.name for doc in stream_documents(dataset)}` (step 1 of
`main`), as the list of streamed names. -/
def existingNames (pages : List (List (RemoteDoc × DocEnv))) : List String :=
  (stream_documents pages).map (fun p => p.1.name)

/-- A sample observation sequence: six non-terminal polls (errors and
non-terminal statuses interleaved), then `DONE`. -/
def demoPolls : List PollObs :=
  [PollObs.fetchErr, PollObs.fetched "RUNNING", PollObs.fetchErr,
   PollObs.fetched "PENDING", PollObs.fetchErr, PollObs.fetched "RUNNING",
   PollObs.fetched "DONE"]

/-- A sample remote listing: one page holding one already-parsed document
and one still-running document. -/
def demoPages : List (List (RemoteDoc × DocEnv)) :=
  [[(⟨"i1", "a.txt", "DONE"⟩, ⟨true, []⟩),
    (⟨"i2", "b.txt", "RUNNING"⟩, ⟨true, [PollObs.fetched "DONE"]⟩)]]

/-- A sample remote listing in which every document is already `DONE`. -/
def demoPagesDone : List (List (RemoteDoc × DocEnv)) :=
  [[(⟨"i1", "a.txt", "DONE"⟩, ⟨true, []⟩)]]

/-- A sample remote listing as a previous completed run can leave it: the
document was uploaded, its parse was attempted, and it ended in the
terminal `FAIL` status (the run logs the failure and continues). -/
def demoPagesFail : List (List (RemoteDoc × DocEnv)) :=
  [[(⟨"i1", "a.txt", "FAIL"⟩, ⟨true, [PollObs.fetched "DONE"]⟩)]]

end Ingest

namespace Books

/-- One record of the hardcoded `BOOKS` list of `books_GET.py`. -/
structure Book where
  title : String
  author : String
  category : String
deriving Repr, DecidableEq

/-- The hardcoded `BOOKS` list. -/
def BOOKS : List Book :=
  [⟨"Title One", "Author One", "Science"⟩,
   ⟨"Title Two", "Author Two", "Science"⟩,
   ⟨"Title Three", "Author Three", "History"⟩,
   ⟨"Title Four", "Author Four", "Math"⟩,
   ⟨"Title Five", "Author Five", "Math"⟩,
   ⟨"Title Six", "Author Two", "Math"⟩]

/-- Python's `str.casefold`; on the ASCII strings occurring in `BOOKS` it
is character-wise lowercasing, which is how we model it. -/
def casefold (s : String) : String := ⟨s.data.map Char.toLower⟩

/-- The `for book in books:` loop of `is_title_existing`.  Both branches of
its body return (`{"exists": True}` on a casefolded match of the current
title, `{"exists": False}` otherwise), so the loop never reaches a second
element; an empty list falls through and returns Python's implicit `None`. -/
def searchLoop (search : String) : List Book → Option Bool
  | [] => none
  | b :: _ => if casefold search = casefold b.title then some true else some false

/-- `is_title_existing(search)` over the module's `BOOKS`. -/
def is_title_existing (search : String) : Option Bool :=
  searchLoop search BOOKS

end Books

namespace Ingest

/-! ## Lemmas about the polling loop -/

theorem nextBackoff_le (b : Nat) : nextBackoff b ≤ MAX_BACKOFF := min_le_right _ _

theorem pollSleeps_nil (b : Nat) : pollSleeps b [] = [] := rfl

theorem pollSleeps_err (b : Nat) (os : List PollObs) :
    pollSleeps b (PollObs.fetchErr :: os) = b :: pollSleeps (nextBackoff b) os := rfl

theorem pollSleeps_fetched (b : Nat) (s : String) (os : List PollObs) :
    pollSleeps b (PollObs.fetched s :: os) =
      if s = "DONE" ∨ s = "FAIL" then [] else b :: pollSleeps (nextBackoff b) os := by
  by_cases h : s = "DONE" ∨ s = "FAIL" <;> simp [pollSleeps, pollLoop, h]

theorem pollResult_nil (b : Nat) : pollResult b [] = none := rfl

theorem pollResult_err (b : Nat) (os : List PollObs) :
    pollResult b (PollObs.fetchErr :: os) = pollResult (nextBackoff b) os := rfl

theorem pollResult_fetched (b : Nat) (s : String) (os : List PollObs) :
    pollResult b (PollObs.fetched s :: os) =
      if s = "DONE" ∨ s = "FAIL" then some s else pollResult (nextBackoff b) os := by
  by_cases h : s = "DONE" ∨ s = "FAIL" <;> simp [pollResult, pollLoop, h]

theorem terminal_fetched (s : String) :
    terminal (PollObs.fetched s) = true ↔ (s = "DONE" ∨ s = "FAIL") := by
  simp [terminal]

theorem terminal_fetchErr : terminal PollObs.fetchErr = false := rfl

/-- A nonempty sleep sequence starts with the session's starting back-off. -/
theorem pollSleeps_head (b : Nat) (os : List PollObs) :
    pollSleeps b os = [] ∨ ∃ t, pollSleeps b os = b :: t := by
  cases os with
  | nil => exact Or.inl rfl
  | cons o os =>
    cases o with
    | fetchErr => exact Or.inr ⟨_, rfl⟩
    | fetched s =>
      by_cases h : s = "DONE" ∨ s = "FAIL"
      · exact Or.inl (by rw [pollSleeps_fetched, if_pos h])
      · exact Or.inr ⟨_, by rw [pollSleeps_fetched, if_neg h]⟩

/-- Sleep durations never decrease along a session (consecutive steps). -/
theorem pollSleeps_chain (os : List PollObs) :
    ∀ b, b ≤ MAX_BACKOFF → List.Chain' (· ≤ ·) (pollSleeps b os) := by
  induction os with
  | nil => intro b _; simp [pollSleeps_nil]
  | cons o os ih =>
    intro b hb
    have hstep : List.Chain' (· ≤ ·) (b :: pollSleeps (nextBackoff b) os) := by
      rw [List.chain'_cons']
      refine ⟨?_, ih (nextBackoff b) (nextBackoff_le b)⟩
      intro y hy
      rcases pollSleeps_head (nextBackoff b) os with h0 | ⟨t, ht⟩
      · rw [h0] at hy; simp at hy
      · rw [ht] at hy
        simp only [List.head?_cons, Option.mem_def, Option.some.injEq] at hy
        subst hy
        exact le_min (by omega) hb
    cases o with
    | fetchErr => rw [pollSleeps_err]; exact hstep
    | fetched s =>
      rw [pollSleeps_fetched]
      by_cases h : s = "DONE" ∨ s = "FAIL"
      · simp [h]
      · rw [if_neg h]; exact hstep

theorem pollSleeps_pairwise (b : Nat) (hb : b ≤ MAX_BACKOFF) (os : List PollObs) :
    List.Pairwise (· ≤ ·) (pollSleeps b os) :=
  List.chain'_iff_pairwise.mp (pollSleeps_chain os b hb)

theorem nextBackoff_pow (b k : Nat) :
    min (nextBackoff b * 2 ^ k) MAX_BACKOFF = min (b * 2 ^ (k + 1)) MAX_BACKOFF := by
  unfold nextBackoff
  rcases le_total (b * 2) MAX_BACKOFF with h | h
  · rw [min_eq_left h]
    congr 1
    ring
  · rw [min_eq_right h]
    have h1 : MAX_BACKOFF ≤ MAX_BACKOFF * 2 ^ k :=
      Nat.le_mul_of_pos_right _ (Nat.two_pow_pos k)
    have h2 : (2 : Nat) ≤ 2 ^ (k + 1) := by
      calc (2 : Nat) = 2 ^ 1 := (pow_one 2).symm
        _ ≤ 2 ^ (k + 1) := Nat.pow_le_pow_right (by norm_num) (by omega)
    have h3 : MAX_BACKOFF ≤ b * 2 ^ (k + 1) := by
      calc MAX_BACKOFF ≤ b * 2 := h
        _ ≤ b * 2 ^ (k + 1) := Nat.mul_le_mul_left b h2
    rw [min_eq_right h1, min_eq_right h3]

/-- Closed form of the back-off sequence: the `k`-th sleep of a session that
starts at back-off `b ≤ MAX_BACKOFF` lasts `min (b * 2 ^ k) MAX_BACKOFF`. -/
theorem pollSleeps_getElem (os : List PollObs) :
    ∀ b k, b ≤ MAX_BACKOFF → k < (pollSleeps b os).length →
      (pollSleeps b os)[k]? = some (min (b * 2 ^ k) MAX_BACKOFF) := by
  induction os with
  | nil => intro b k _ h; rw [pollSleeps_nil] at h; simp at h
  | cons o os ih =>
    intro b k hb h
    have hstep : k < (b :: pollSleeps (nextBackoff b) os).length →
        (b :: pollSleeps (nextBackoff b) os)[k]? = some (min (b * 2 ^ k) MAX_BACKOFF) := by
      intro hk
      cases k with
      | zero => simp [min_eq_left hb]
      | succ k =>
        rw [List.getElem?_cons_succ]
        have hk2 : k < (pollSleeps (nextBackoff b) os).length := by
          simpa using hk
        rw [ih (nextBackoff b) k (nextBackoff_le b) hk2, nextBackoff_pow]
    cases o with
    | fetchErr =>
      rw [pollSleeps_err] at h ⊢
      exact hstep h
    | fetched s =>
      by_cases hs : s = "DONE" ∨ s = "FAIL"
      · rw [pollSleeps_fetched, if_pos hs] at h
        simp at h
      · rw [pollSleeps_fetched, if_neg hs] at h ⊢
        exact hstep h

/-- A session sleeps once for every poll that does not observe a terminal
status: the number of sleeps is the length of the non-terminal prefix of
the observations. -/
theorem pollSleeps_length (os : List PollObs) :
    ∀ b, (pollSleeps b os).length = (os.takeWhile (fun o => !terminal o)).length := by
  induction os with
  | nil => intro b; rfl
  | cons o os ih =>
    intro b
    cases o with
    | fetchErr =>
      rw [pollSleeps_err]
      simp [List.takeWhile_cons, terminal_fetchErr, ih]
    | fetched s =>
      by_cases hs : s = "DONE" ∨ s = "FAIL"
      · have ht : terminal (PollObs.fetched s) = true := (terminal_fetched s).mpr hs
        rw [pollSleeps_fetched, if_pos hs]
        simp [List.takeWhile_cons, ht]
      · have ht : terminal (PollObs.fetched s) = false := by
          rcases Bool.eq_false_or_eq_true (terminal (PollObs.fetched s)) with h | h
          · exact absurd ((terminal_fetched s).mp h) hs
          · exact h
        rw [pollSleeps_fetched, if_neg hs]
        simp [List.takeWhile_cons, ht, ih]

/-- The polling loop reaches a terminal state within a finite prefix of
observations exactly when that prefix contains a terminal observation. -/
theorem pollResult_isSome_iff (os : List PollObs) :
    ∀ b, (pollResult b os).isSome = true ↔ ∃ o ∈ os, terminal o = true := by
  induction os with
  | nil => intro b; simp [pollResult_nil]
  | cons o os ih =>
    intro b
    cases o with
    | fetchErr =>
      rw [pollResult_err, ih (nextBackoff b)]
      constructor
      · rintro ⟨o, ho, hterm⟩
        exact ⟨o, List.mem_cons_of_mem _ ho, hterm⟩
      · rintro ⟨o, ho, hterm⟩
        rcases List.mem_cons.mp ho with rfl | ho2
        · rw [terminal_fetchErr] at hterm; cases hterm
        · exact ⟨o, ho2, hterm⟩
    | fetched s =>
      by_cases hs : s = "DONE" ∨ s = "FAIL"
      · rw [pollResult_fetched, if_pos hs]
        constructor
        · intro _
          exact ⟨PollObs.fetched s, List.mem_cons_self _ _, (terminal_fetched s).mpr hs⟩
        · intro _; rfl
      · rw [pollResult_fetched, if_neg hs, ih (nextBackoff b)]
        constructor
        · rintro ⟨o, ho, hterm⟩
          exact ⟨o, List.mem_cons_of_mem _ ho, hterm⟩
        · rintro ⟨o, ho, hterm⟩
          rcases List.mem_cons.mp ho with rfl | ho2
          · exact absurd ((terminal_fetched s).mp hterm) hs
          · exact ⟨o, ho2, hterm⟩

/-- When the loop exits, the status it exited on is `DONE` or `FAIL`. -/
theorem pollResult_terminal (os : List PollObs) :
    ∀ b s, pollResult b os = some s → s = "DONE" ∨ s = "FAIL" := by
  induction os with
  | nil => intro b s h; rw [pollResult_nil] at h; cases h
  | cons o os ih =>
    intro b s h
    cases o with
    | fetchErr => rw [pollResult_err] at h; exact ih _ _ h
    | fetched t =>
      rw [pollResult_fetched] at h
      by_cases hs : t = "DONE" ∨ t = "FAIL"
      · rw [if_pos hs] at h
        cases h
        exact hs
      · rw [if_neg hs] at h
        exact ih _ _ h

/-! ## Lemmas about the parse phase -/

theorem filterMap_map_none {α β : Type} (f : α → Event) (g : Event → Option β)
    (hg : ∀ a, g (f a) = none) (l : List α) : (l.map f).filterMap g = [] := by
  induction l with
  | nil => rfl
  | cons x xs ih => simp [hg, ih]

theorem parseRequests_nil : parseRequests [] = [] := rfl

theorem parseRequests_cons_parsing (n i : String) (tr : List Event) :
    parseRequests (Event.parsing n i :: tr) = parseRequests tr := rfl

theorem parseRequests_cons_requested (ids : List String) (tr : List Event) :
    parseRequests (Event.parseRequested ids :: tr) = ids :: parseRequests tr := rfl

theorem parseRequests_append (l1 l2 : List Event) :
    parseRequests (l1 ++ l2) = parseRequests l1 ++ parseRequests l2 :=
  List.filterMap_append l1 l2 _

/-- A polling session never issues an async-parse request. -/
theorem parseRequests_session (d : RemoteDoc) (env : DocEnv) :
    parseRequests (sessionEvents d env) = [] := by
  unfold sessionEvents parseRequests
  rw [List.filterMap_append, filterMap_map_none Event.slept _ (fun n => rfl)]
  cases pollResult INITIAL_BACKOFF env.polls with
  | none => rfl
  | some s =>
    by_cases hd : s = "DONE"
    · simp [hd]
    · simp [hd]

/-- The async-parse requests issued for one streamed document: none when it
is already `DONE`, none when the request raises, otherwise exactly one call
carrying exactly its id. -/
theorem parseRequests_parseDoc (d : RemoteDoc) (env : DocEnv) :
    parseRequests (parseDoc d env) =
      if d.run = "DONE" then [] else if env.parseOk then [[d.id]] else [] := by
  unfold parseDoc
  by_cases h : d.run = "DONE"
  · rw [if_pos h, if_pos h]; rfl
  · rw [if_neg h, if_neg h]
    by_cases hp : env.parseOk
    · rw [if_pos hp, if_pos hp, parseRequests_cons_parsing, parseRequests_cons_requested,
        parseRequests_session]
    · rw [if_neg hp, if_neg hp]; rfl

theorem parse_seq_nil : parse_sequentially [] = [] := rfl

theorem parse_seq_cons (p : RemoteDoc × DocEnv) (docs : List (RemoteDoc × DocEnv)) :
    parse_sequentially (p :: docs) = parseDoc p.1 p.2 ++ parse_sequentially docs := rfl

/-- Characterization of all async-parse calls of the parse phase: one call
`[d.id]`, in processing order, for each document that is not listed `DONE`
and whose parse request does not raise. -/
theorem parseRequests_parse_sequentially (docs : List (RemoteDoc × DocEnv)) :
    parseRequests (parse_sequentially docs) =
      (docs.filter (fun p => !(p.1.run == "DONE") && p.2.parseOk)).map (fun p => [p.1.id]) := by
  induction docs with
  | nil => rfl
  | cons p docs ih =>
    rw [parse_seq_cons, parseRequests_append, parseRequests_parseDoc, ih]
    by_cases h : p.1.run = "DONE"
    · simp [h]
    · by_cases hp : p.2.parseOk
      · simp [h, hp]
      · simp [h, hp]

/-- A polling session emits no document-opening log line. -/
theorem visited_session (d : RemoteDoc) (env : DocEnv) :
    (sessionEvents d env).filterMap visitedName = [] := by
  unfold sessionEvents
  rw [List.filterMap_append, filterMap_map_none Event.slept _ (fun n => rfl)]
  cases pollResult INITIAL_BACKOFF env.polls with
  | none => rfl
  | some s =>
    by_cases hd : s = "DONE"
    · simp [hd, visitedName]
    · simp [hd, visitedName]

/-- Each streamed document opens exactly one treatment, logged under its
name (the `Skipping` or `Parsing` line). -/
theorem visited_parseDoc (d : RemoteDoc) (env : DocEnv) :
    (parseDoc d env).filterMap visitedName = [d.name] := by
  unfold parseDoc
  by_cases h : d.run = "DONE"
  · rw [if_pos h]; rfl
  · rw [if_neg h]
    by_cases hp : env.parseOk
    · rw [if_pos hp]
      simp [List.filterMap_cons, visitedName, visited_session d env]
    · rw [if_neg hp]; rfl

/-- The documents are treated in exactly the order the listing streams
them. -/
theorem visited_parse_sequentially (docs : List (RemoteDoc × DocEnv)) :
    (parse_sequentially docs).filterMap visitedName = docs.map (fun p => p.1.name) := by
  induction docs with
  | nil => rfl
  | cons p docs ih =>
    rw [parse_seq_cons, List.filterMap_append, visited_parseDoc, ih]
    rfl

/-! ## Lemmas about the batch uploader -/

theorem ceilDiv_zero (B : Nat) : ceilDiv 0 B = 0 := by
  unfold ceilDiv
  cases B with
  | zero => rfl
  | succ b =>
    have h : 0 + (b + 1) - 1 = b := by omega
    rw [h]
    exact Nat.div_eq_of_lt (by omega)

theorem uploadCalls_nil (B : Nat) : uploadCalls B [] = [] := by
  unfold uploadCalls batches
  rw [List.length_nil, ceilDiv_zero]
  rfl

theorem lt_of_lt_ceilDiv {i N B : Nat} (hB : 0 < B) (h : i < ceilDiv N B) : i * B < N := by
  unfold ceilDiv at h
  have h2 : (i + 1) * B ≤ N + B - 1 := (Nat.le_div_iff_mul_le hB).mp h
  have h3 : (i + 1) * B = i * B + B := by ring
  omega

/-- Every batch produced by the slicing loop is nonempty, has at most `B`
elements, and draws its elements from the input list. -/
theorem batches_mem {α : Type} {B : Nat} (hB : 0 < B) {l batch : List α}
    (h : batch ∈ batches B l) :
    batch ≠ [] ∧ batch.length ≤ B ∧ ∀ x ∈ batch, x ∈ l := by
  rcases List.mem_map.mp h with ⟨i, hi, rfl⟩
  have hi2 : i < ceilDiv l.length B := List.mem_range.mp hi
  have hlt : i * B < l.length := lt_of_lt_ceilDiv hB hi2
  refine ⟨?_, ?_, ?_⟩
  · have hdl : 0 < (l.drop (i * B)).length := by rw [List.length_drop]; omega
    have hpos : 0 < ((l.drop (i * B)).take B).length := by
      rw [List.length_take]
      exact lt_min_iff.mpr ⟨hB, hdl⟩
    exact List.length_pos.mp hpos
  · rw [List.length_take]; exact min_le_left _ _
  · intro x hx
    exact List.mem_of_mem_drop (List.mem_of_mem_take hx)

theorem length_filterMap_of_isSome {α β : Type} (f : α → Option β) :
    ∀ l : List α, (∀ a ∈ l, (f a).isSome) → (l.filterMap f).length = l.length := by
  intro l
  induction l with
  | nil => intro _; rfl
  | cons a l ih =>
    intro h
    rcases hfa : f a with _ | b
    · have hs := h a (List.mem_cons_self a l)
      rw [hfa] at hs
      cases hs
    · simp only [List.filterMap_cons, hfa, List.length_cons]
      rw [ih (fun x hx => h x (List.mem_cons_of_mem _ hx))]

theorem uploadCalls_length_le (B : Nat) (files : List LocalFile) :
    (uploadCalls B files).length ≤ ceilDiv files.length B := by
  calc (uploadCalls B files).length ≤ (batches B files).length :=
        List.length_filterMap_le _ _
    _ = ceilDiv files.length B := by simp [batches]

/-- Every issued call is the (nonempty) docs list of one of the batches. -/
theorem mem_uploadCalls {B : Nat} {files : List LocalFile} {c : List Document}
    (h : c ∈ uploadCalls B files) :
    ∃ batch ∈ batches B files, c = batchDocs batch ∧ c ≠ [] := by
  rcases List.mem_filterMap.mp h with ⟨batch, hb, hc⟩
  by_cases he : (batchDocs batch).isEmpty
  · rw [if_pos he] at hc; cases hc
  · rw [if_neg he] at hc
    cases hc
    refine ⟨batch, hb, rfl, ?_⟩
    intro hnil
    exact he (by rw [hnil]; rfl)

/-- When every read succeeds, no batch is skipped: the loop issues one
upload call per batch. -/
theorem uploadCalls_length_eq {B : Nat} (hB : 0 < B) (files : List LocalFile)
    (hr : ∀ f ∈ files, f.readResult.isSome) :
    (uploadCalls B files).length = ceilDiv files.length B := by
  unfold uploadCalls
  rw [length_filterMap_of_isSome _ _ ?_]
  · simp [batches]
  · intro batch hb
    rcases batches_mem hB hb with ⟨hne, _, hsub⟩
    have hdocs : (batchDocs batch).length = batch.length :=
      length_filterMap_of_isSome _ _ (fun f hf => by
        rcases hfr : f.readResult with _ | b
        · have hs := hr f (hsub f hf)
          rw [hfr] at hs
          cases hs
        · simp [build_document, hfr])
    have hpos : 0 < (batchDocs batch).length := by
      rw [hdocs]; exact List.length_pos.mpr hne
    have hne2 : batchDocs batch ≠ [] := List.length_pos.mp hpos
    have hie : (batchDocs batch).isEmpty = false := by
      rcases hbe : batchDocs batch with _ | ⟨x, xs⟩
      · exact absurd hbe hne2
      · rfl
    rw [hie]
    rfl

/-- Projecting the submit outcomes away from the upload trace yields exactly
the issued calls: which calls are issued does not depend on which submits
raise. -/
theorem uploadTrace_proj (submitOk : Nat → Bool) (B : Nat) (files : List LocalFile) :
    (uploadTrace submitOk B files).map Prod.fst = uploadCalls B files := by
  unfold uploadTrace uploadCalls batches
  rw [List.filterMap_map]
  induction List.range (ceilDiv files.length B) with
  | nil => rfl
  | cons i l ih =>
    simp only [List.filterMap_cons, Function.comp]
    by_cases he : (batchDocs ((files.drop (i * B)).take B)).isEmpty
    · rw [if_pos he, if_pos he]
      exact ih
    · rw [if_neg he, if_neg he]
      simp only [List.map_cons]
      rw [ih]

/-! ## Claim theorems -/

/-- C1: the polling state machine preserves the three claimed invariants:
within one document's polling session the back-off sleeps are monotonically
non-decreasing; every new document's session starts from the initial
back-off value (a nonempty sleep sequence begins with `INITIAL_BACKOFF`);
and the parse phase treats the documents in exactly the order the remote
listing's pagination streams them. -/
theorem polling_state_machine_invariants :
    (∀ env : DocEnv, List.Pairwise (· ≤ ·) (pollSleeps INITIAL_BACKOFF env.polls)) ∧
    (∀ env : DocEnv, pollSleeps INITIAL_BACKOFF env.polls = [] ∨
      ∃ t, pollSleeps INITIAL_BACKOFF env.polls = INITIAL_BACKOFF :: t) ∧
    (∀ pages : List (List (RemoteDoc × DocEnv)),
      (parsePhase pages).filterMap visitedName =
        (stream_documents pages).map (fun p => p.1.name)) := by
  refine ⟨fun env => pollSleeps_pairwise _ (by decide) _,
    fun env => pollSleeps_head _ _, fun pages => ?_⟩
  unfold parsePhase
  exact visited_parse_sequentially _

/-- C1 instance at sample inputs. -/
theorem polling_state_machine_invariants_witness :
    List.Pairwise (· ≤ ·) (pollSleeps INITIAL_BACKOFF (DocEnv.mk true demoPolls).polls) ∧
    (parsePhase demoPages).filterMap visitedName =
      (stream_documents demoPages).map (fun p => p.1.name) :=
  ⟨polling_state_machine_invariants.1 (DocEnv.mk true demoPolls),
   polling_state_machine_invariants.2.2 demoPages⟩

/-- C2: with the default configuration the `k`-th sleep of a polling
session lasts `min (2 ^ k) MAX_BACKOFF` seconds — the sequence
1, 2, 4, 8, 16, 16, 16, … — and the session sleeps once for every poll
that does not observe a terminal status. -/
theorem default_backoff_sequence (os : List PollObs) (k : Nat)
    (h : k < (pollSleeps INITIAL_BACKOFF os).length) :
    (pollSleeps INITIAL_BACKOFF os)[k]? = some (min (2 ^ k) MAX_BACKOFF) ∧
    (pollSleeps INITIAL_BACKOFF os).length =
      (os.takeWhile (fun o => !terminal o)).length := by
  constructor
  · have h2 := pollSleeps_getElem os INITIAL_BACKOFF k (by decide) h
    simpa [INITIAL_BACKOFF] using h2
  · exact pollSleeps_length os INITIAL_BACKOFF

/-- C2 instance: the sixth sleep of the sample session is capped at 16. -/
theorem default_backoff_sequence_witness :
    5 < (pollSleeps INITIAL_BACKOFF demoPolls).length ∧
    ((pollSleeps INITIAL_BACKOFF demoPolls)[5]? = some (min (2 ^ 5) MAX_BACKOFF) ∧
      (pollSleeps INITIAL_BACKOFF demoPolls).length =
        (demoPolls.takeWhile (fun o => !terminal o)).length) :=
  ⟨by decide, default_backoff_sequence demoPolls 5 (by decide)⟩

/-- C3: the duplicate filter returns exactly the order-preserving
subsequence of the local files whose POSIX relative path is not among the
existing remote names, membership being exact case-sensitive string
equality. -/
theorem duplicate_filter_exact (existing : List String) (files : List LocalFile) :
    to_upload existing files = files.filter (fun f => decide (f.relPosix ∉ existing)) ∧
    List.Sublist (to_upload existing files) files ∧
    ∀ f, f ∈ to_upload existing files ↔ (f ∈ files ∧ f.relPosix ∉ existing) := by
  refine ⟨?_, List.filter_sublist files, ?_⟩
  · unfold to_upload
    apply List.filter_congr
    intro f _
    by_cases h : f.relPosix ∈ existing
    · have hc : existing.contains f.relPosix = true := List.elem_iff.mpr h
      rw [hc]
      simp [h]
    · have hc : existing.contains f.relPosix = false :=
        Bool.eq_false_iff.mpr (fun hb => h (List.elem_iff.mp hb))
      rw [hc]
      simp [h]
  · intro f
    constructor
    · intro hm
      rcases List.mem_filter.mp hm with ⟨h1, h2⟩
      refine ⟨h1, fun hmem => ?_⟩
      have hc : existing.contains f.relPosix = true := List.elem_iff.mpr hmem
      rw [hc] at h2
      simp at h2
    · rintro ⟨h1, h2⟩
      apply List.mem_filter.mpr
      refine ⟨h1, ?_⟩
      have hc : existing.contains f.relPosix = false :=
        Bool.eq_false_iff.mpr (fun hb => h2 (List.elem_iff.mp hb))
      rw [hc]
      rfl

/-- C3 instance at concrete inputs. -/
theorem duplicate_filter_exact_witness :
    to_upload ["a.txt"] [⟨"a.txt", none⟩, ⟨"b.txt", some [7]⟩] =
      ([⟨"a.txt", none⟩, ⟨"b.txt", some [7]⟩] : List LocalFile).filter
        (fun f => decide (f.relPosix ∉ ["a.txt"])) :=
  (duplicate_filter_exact ["a.txt"] [⟨"a.txt", none⟩, ⟨"b.txt", some [7]⟩]).1

/-- C4 as stated is false on the code: with batch size 1 and a single file
whose read raises, the only batch's docs list is empty, the call is skipped
(`if not docs: continue`), and zero — not ⌈1/1⌉ = 1 — upload calls are
issued. -/
theorem upload_call_count_cex :
    ¬ (uploadCalls 1 [{ relPosix := "a.txt", readResult := none }]).length =
        ceilDiv ([{ relPosix := "a.txt", readResult := none }] : List LocalFile).length 1 := by
  decide

/-- C4 amended: with batch size `B > 0` the uploader issues at most
`⌈N/B⌉` bulk-upload calls, each carrying at most `B` descriptors, and
exactly `⌈N/B⌉` when every file's read succeeds; a batch in which every
read fails is skipped. -/
theorem upload_call_count_amended (B : Nat) (hB : 0 < B) (files : List LocalFile) :
    (uploadCalls B files).length ≤ ceilDiv files.length B ∧
    (∀ c ∈ uploadCalls B files, c.length ≤ B) ∧
    ((∀ f ∈ files, f.readResult.isSome) →
      (uploadCalls B files).length = ceilDiv files.length B) := by
  refine ⟨uploadCalls_length_le B files, ?_, fun hr => uploadCalls_length_eq hB files hr⟩
  intro c hc
  rcases mem_uploadCalls hc with ⟨batch, hb, rfl, _⟩
  calc (batchDocs batch).length ≤ batch.length := List.length_filterMap_le _ _
    _ ≤ B := (batches_mem hB hb).2.1

/-- C4 amended, instance: three readable files at batch size two yield
exactly ⌈3/2⌉ = 2 calls. -/
theorem upload_call_count_amended_witness :
    0 < 2 ∧
    (∀ f ∈ ([⟨"a.txt", some [1]⟩, ⟨"b.txt", some [2]⟩, ⟨"c.txt", some [3]⟩] :
        List LocalFile), f.readResult.isSome) ∧
    (uploadCalls 2 [⟨"a.txt", some [1]⟩, ⟨"b.txt", some [2]⟩, ⟨"c.txt", some [3]⟩]).length =
      ceilDiv 3 2 :=
  ⟨by decide, by decide,
    (upload_call_count_amended 2 (by decide)
      [⟨"a.txt", some [1]⟩, ⟨"b.txt", some [2]⟩, ⟨"c.txt", some [3]⟩]).2.2 (by decide)⟩

/-- C5: a streamed document listed `DONE` is skipped entirely — its
treatment is the single `Skipping` event — and every async-parse call of
the parse phase carries exactly the id of a streamed document that was not
listed `DONE`. -/
theorem done_documents_never_parsed (pages : List (List (RemoteDoc × DocEnv)))
    (d : RemoteDoc) (env : DocEnv)
    (_hmem : (d, env) ∈ stream_documents pages) (hdone : d.run = "DONE") :
    parseDoc d env = [Event.skipped d.name] ∧
    ∀ ids ∈ parseRequests (parsePhase pages),
      ∃ p, p ∈ stream_documents pages ∧ p.1.run ≠ "DONE" ∧ ids = [p.1.id] := by
  constructor
  · unfold parseDoc
    rw [if_pos hdone]
  · intro ids hids
    rw [parsePhase, parseRequests_parse_sequentially] at hids
    rcases List.mem_map.mp hids with ⟨p, hp, rfl⟩
    rcases List.mem_filter.mp hp with ⟨hp1, hp2⟩
    refine ⟨p, hp1, ?_, rfl⟩
    intro hrun
    rw [hrun] at hp2
    simp at hp2

/-- C5 instance: the already-`DONE` sample document is skipped. -/
theorem done_documents_never_parsed_witness :
    ((⟨"i1", "a.txt", "DONE"⟩, (⟨true, []⟩ : DocEnv)) ∈ stream_documents demoPages) ∧
    (parseDoc ⟨"i1", "a.txt", "DONE"⟩ ⟨true, []⟩ = [Event.skipped "a.txt"] ∧
      ∀ ids ∈ parseRequests (parsePhase demoPages),
        ∃ p, p ∈ stream_documents demoPages ∧ p.1.run ≠ "DONE" ∧ ids = [p.1.id]) :=
  ⟨by decide,
   done_documents_never_parsed demoPages ⟨"i1", "a.txt", "DONE"⟩ ⟨true, []⟩ (by decide) rfl⟩

/-- C6 as stated is false on the code: statuses "as the previous run left
them" include the terminal `FAIL` a completed run leaves behind (the
failure is logged and the run continues to completion).  On a re-run such
a document passes the `doc.run == "DONE"` skip check and is queued again:
with one local file already uploaded and the remote document left `FAIL`,
the upload set is empty but the parse phase issues an async-parse request,
not zero. -/
theorem unchanged_rerun_cex :
    (∀ f ∈ ([⟨"a.txt", some [1]⟩] : List LocalFile),
      f.relPosix ∈ existingNames demoPagesFail) ∧
    to_upload (existingNames demoPagesFail) [⟨"a.txt", some [1]⟩] = [] ∧
    parseRequests (parsePhase demoPagesFail) ≠ [] := by
  decide

/-- C6 amended: re-running the pipeline against an unchanged remote
dataset uploads nothing and parses nothing provided the previous run left
every remote document in the `DONE` status — the upload set is empty,
hence zero bulk-upload calls, and zero async-parse requests.  (A document
left `FAIL`, or left unqueued by a raised parse request, is re-queued on
the next run.) -/
theorem unchanged_rerun_idempotent (pages : List (List (RemoteDoc × DocEnv)))
    (files : List LocalFile) (B : Nat)
    (hup : ∀ f ∈ files, f.relPosix ∈ existingNames pages)
    (hdone : ∀ p ∈ stream_documents pages, (p : RemoteDoc × DocEnv).1.run = "DONE") :
    to_upload (existingNames pages) files = [] ∧
    uploadCalls B (to_upload (existingNames pages) files) = [] ∧
    parseRequests (parsePhase pages) = [] := by
  have h1 : to_upload (existingNames pages) files = [] := by
    unfold to_upload
    apply List.filter_eq_nil_iff.mpr
    intro f hf
    have hc : (existingNames pages).contains f.relPosix = true :=
      List.elem_iff.mpr (hup f hf)
    rw [hc]
    simp
  refine ⟨h1, ?_, ?_⟩
  · rw [h1, uploadCalls_nil]
  · rw [parsePhase, parseRequests_parse_sequentially]
    have h2 : (stream_documents pages).filter
        (fun p => !(p.1.run == "DONE") && p.2.parseOk) = [] := by
      apply List.filter_eq_nil_iff.mpr
      intro p hp
      rw [hdone p hp]
      simp
    rw [h2, List.map_nil]

/-- C6 instance: an unchanged run over the all-`DONE` sample listing. -/
theorem unchanged_rerun_idempotent_witness :
    (∀ f ∈ ([⟨"a.txt", some [1]⟩] : List LocalFile),
      f.relPosix ∈ existingNames demoPagesDone) ∧
    (to_upload (existingNames demoPagesDone) [⟨"a.txt", some [1]⟩] = [] ∧
      uploadCalls BATCH_SIZE (to_upload (existingNames demoPagesDone) [⟨"a.txt", some [1]⟩]) = [] ∧
      parseRequests (parsePhase demoPagesDone) = []) :=
  ⟨by decide,
   unchanged_rerun_idempotent demoPagesDone [⟨"a.txt", some [1]⟩] BATCH_SIZE
     (by decide) (by decide)⟩

/-- C7: a failed status fetch leaves the loop running — the session's
outcome is that of continuing with the advanced back-off — performs the
current back-off sleep first, advances the back-off by doubling capped at
`MAX_BACKOFF`, and a polling session never issues an async-parse request. -/
theorem transient_poll_error_behavior (b : Nat) (os : List PollObs)
    (d : RemoteDoc) (env : DocEnv) :
    pollLoop b (PollObs.fetchErr :: os) =
      (pollResult (nextBackoff b) os, b :: pollSleeps (nextBackoff b) os) ∧
    nextBackoff b = min (b * 2) MAX_BACKOFF ∧
    ∀ ids, Event.parseRequested ids ∉ sessionEvents d env := by
  refine ⟨rfl, rfl, fun ids hmem => ?_⟩
  have h2 : ids ∈ parseRequests (sessionEvents d env) :=
    List.mem_filterMap.mpr ⟨Event.parseRequested ids, hmem, rfl⟩
  rw [parseRequests_session d env] at h2
  cases h2

/-- C7 instance at concrete inputs. -/
theorem transient_poll_error_behavior_witness :
    pollLoop 1 [PollObs.fetchErr] =
      (pollResult (nextBackoff 1) [], 1 :: pollSleeps (nextBackoff 1) []) ∧
    nextBackoff 1 = min (1 * 2) MAX_BACKOFF ∧
    ∀ ids, Event.parseRequested ids ∉
      sessionEvents ⟨"i1", "a.txt", "RUNNING"⟩ ⟨true, []⟩ :=
  transient_poll_error_behavior 1 [] ⟨"i1", "a.txt", "RUNNING"⟩ ⟨true, []⟩

/-- C8: within a batch, a file whose read succeeds contributes its
descriptor to that batch's docs list no matter which other reads fail;
that batch's upload call is issued; and the list of issued calls does not
depend on which submits raise — no read or submit failure prevents other
batches from being processed. -/
theorem batch_partial_failure_tolerance {B : Nat} {files : List LocalFile}
    {batch : List LocalFile} {f : LocalFile} {bytes : List Nat}
    (hb : batch ∈ batches B files) (hf : f ∈ batch)
    (hread : f.readResult = some bytes) :
    ({ display_name := f.relPosix, blob := bytes } : Document) ∈ batchDocs batch ∧
    batchDocs batch ∈ uploadCalls B files ∧
    ∀ submitOk : Nat → Bool,
      (uploadTrace submitOk B files).map Prod.fst = uploadCalls B files := by
  have h1 : ({ display_name := f.relPosix, blob := bytes } : Document) ∈ batchDocs batch :=
    List.mem_filterMap.mpr ⟨f, hf, by simp [build_document, hread]⟩
  refine ⟨h1, ?_, fun submitOk => uploadTrace_proj submitOk B files⟩
  apply List.mem_filterMap.mpr
  refine ⟨batch, hb, ?_⟩
  have hne : batchDocs batch ≠ [] := fun hnil => by
    rw [hnil] at h1
    cases h1
  have hie : (batchDocs batch).isEmpty = false := by
    rcases hbe : batchDocs batch with _ | ⟨x, xs⟩
    · exact absurd hbe hne
    · rfl
  rw [hie]
  simp

/-- C8 instance: the readable file of a half-failing batch is uploaded. -/
theorem batch_partial_failure_tolerance_witness :
    (([⟨"a.txt", none⟩, ⟨"b.txt", some [7]⟩] : List LocalFile) ∈
        batches 2 [⟨"a.txt", none⟩, ⟨"b.txt", some [7]⟩]) ∧
    (({ display_name := "b.txt", blob := [7] } : Document) ∈
        batchDocs [⟨"a.txt", none⟩, ⟨"b.txt", some [7]⟩] ∧
      batchDocs [⟨"a.txt", none⟩, ⟨"b.txt", some [7]⟩] ∈
        uploadCalls 2 [⟨"a.txt", none⟩, ⟨"b.txt", some [7]⟩] ∧
      ∀ submitOk : Nat → Bool,
        (uploadTrace submitOk 2 [⟨"a.txt", none⟩, ⟨"b.txt", some [7]⟩]).map Prod.fst =
          uploadCalls 2 [⟨"a.txt", none⟩, ⟨"b.txt", some [7]⟩]) :=
  ⟨by decide,
   @batch_partial_failure_tolerance 2 [⟨"a.txt", none⟩, ⟨"b.txt", some [7]⟩]
     [⟨"a.txt", none⟩, ⟨"b.txt", some [7]⟩] ⟨"b.txt", some [7]⟩ [7]
     (by decide) (by decide) rfl⟩

/-- C9: over any finite prefix of fetch observations, the polling loop has
reached a terminal state exactly when the prefix contains a successful
fetch showing `DONE` or `FAIL` — there is no poll-count or time bound, so
if every observation is a fetch error or a non-terminal status the loop is
still running after the whole prefix — and the status the loop exits on is
always `DONE` or `FAIL`. -/
theorem polling_termination_iff (os : List PollObs) :
    ((pollResult INITIAL_BACKOFF os).isSome = true ↔ ∃ o ∈ os, terminal o = true) ∧
    ∀ s, pollResult INITIAL_BACKOFF os = some s → s = "DONE" ∨ s = "FAIL" :=
  ⟨pollResult_isSome_iff os INITIAL_BACKOFF, pollResult_terminal os INITIAL_BACKOFF⟩

/-- C9 instance at a concrete observation prefix. -/
theorem polling_termination_iff_witness :
    ((pollResult INITIAL_BACKOFF [PollObs.fetchErr, PollObs.fetched "RUNNING"]).isSome = true ↔
      ∃ o ∈ [PollObs.fetchErr, PollObs.fetched "RUNNING"], terminal o = true) ∧
    ∀ s, pollResult INITIAL_BACKOFF [PollObs.fetchErr, PollObs.fetched "RUNNING"] = some s →
      s = "DONE" ∨ s = "FAIL" :=
  polling_termination_iff [PollObs.fetchErr, PollObs.fetched "RUNNING"]

end Ingest

namespace Books

/-- C10: the title-existence loop returns after examining only the first
book — `{"exists": True}` exactly when the casefolded search equals the
casefolded first title, `{"exists": False}` otherwise, whatever the later
books contain — and on the module's `BOOKS` the first title is
`"Title One"`. -/
theorem title_existence_first_book_only :
    (∀ (search : String) (b : Book) (rest : List Book),
      searchLoop search (b :: rest) = some (decide (casefold search = casefold b.title))) ∧
    ∀ search : String,
      is_title_existing search = some (decide (casefold search = casefold "Title One")) := by
  constructor
  · intro search b rest
    unfold searchLoop
    by_cases h : casefold search = casefold b.title
    · simp [h]
    · simp [h]
  · intro search
    unfold is_title_existing BOOKS
    by_cases h : casefold search = casefold "Title One"
    · simp [searchLoop, h]
    · simp [searchLoop, h]

/-- C10 instance: a case-insensitive hit on the first title. -/
theorem title_existence_first_book_only_witness :
    is_title_existing "tiTLe oNe" =
      some (decide (casefold "tiTLe oNe" = casefold "Title One")) :=
  title_existence_first_book_only.2 "tiTLe oNe"

end Books

